import Mathlib

/-!
Verification of the query-normalization, symbol-inference and step-narration
core of a "math question solver" web application (`app.py`).

The core under study is a set of pure string-processing functions plus four
step narrators (solve, differentiate, integrate, simplify) that delegate the
actual algebra to an external symbolic engine.  The string-processing layer
(`sanitize_input`, `detect_symbols`, equation splitting, the operation
classifier of the form handler) is translated here directly from the source.
The external algebra engine is not part of the repository; its operations
(parsing, polynomial coefficient extraction, solving, differentiation,
integration, numeric evaluation, pretty printing) are modelled as executable
Lean functions over a concrete expression syntax, faithful to the engine
behaviour the source relies on (in particular: coefficient extraction raises
on multivariate polynomials, and integration returns an *unevaluated*
integral value - not an error - when no closed form is found).
-/

namespace MathSolver

attribute [local semireducible] Rat.add Rat.sub Rat.mul Rat.inv Rat.ofScientific

deriving instance DecidableEq for Except

/-! ### Characters and basic string utilities -/

/-- The whitespace characters stripped by the host language's `strip()`
(ASCII fragment). -/
def isPySpace (c : Char) : Bool :=
  c == ' ' || c == '\t' || c == '\n' || c == '\r' || c == '\x0b' || c == '\x0c'

/-- ASCII letter test, the character class used by the symbol detector's
pattern `[A-Za-z]+`. -/
def isAsciiAlpha (c : Char) : Bool :=
  ('A' ≤ c && c ≤ 'Z') || ('a' ≤ c && c ≤ 'z')

/-- Replace every caret with the two-character power operator,
modelling `text.replace('^', '**')`. -/
def replCaret : List Char → List Char
  | [] => []
  | c :: cs => if c = '^' then '*' :: '*' :: replCaret cs else c :: replCaret cs

/-- Replace the unicode division glyph with a slash,
modelling `text.replace('÷', '/')`. -/
def replDivCh : List Char → List Char
  | [] => []
  | c :: cs => (if c = '÷' then '/' else c) :: replDivCh cs

/-- Drop leading whitespace. -/
def trimL (l : List Char) : List Char := l.dropWhile isPySpace

/-- Drop trailing whitespace. -/
def trimR (l : List Char) : List Char := (trimL l.reverse).reverse

/-- Strip surrounding whitespace, modelling `str.strip()`. -/
def pyStrip (l : List Char) : List Char := trimR (trimL l)

/-- `sanitize_input` on the underlying character list:
caret to power operator, unicode division to slash, strip. -/
def sanitizeL (l : List Char) : List Char := pyStrip (replDivCh (replCaret l))

/-- `sanitize_input(text)` from the source: normalize user math input. -/
def sanitize_input (s : String) : String := ⟨sanitizeL s.data⟩

/-- `str.strip()` lifted to `String`. -/
def pyStripStr (s : String) : String := ⟨pyStrip s.data⟩

/-- Count occurrences of a character. -/
def countC (c : Char) : List Char → ℕ
  | [] => 0
  | a :: as => (if a = c then 1 else 0) + countC c as

/-- Python `str.split(sep)` for a one-character separator: all segments,
empty segments included. -/
def splitChar (c : Char) : List Char → List (List Char)
  | [] => [[]]
  | a :: as =>
    if a = c then [] :: splitChar c as
    else
      match splitChar c as with
      | [] => [[a]]
      | seg :: rest => (a :: seg) :: rest

/-- Lower-case a string (ASCII), modelling `str.lower()` on the inputs the
core receives. -/
def lowerStr (s : String) : String := ⟨s.data.map Char.toLower⟩

/-- Does `needle` occur at the head of `hay`? -/
def startsL : List Char → List Char → Bool
  | [], _ => true
  | _ :: _, [] => false
  | a :: as, b :: bs => a == b && startsL as bs

/-- Substring occurrence test, modelling Python's `needle in hay`. -/
def isSubL (needle : List Char) : List Char → Bool
  | [] => startsL needle []
  | b :: bs => startsL needle (b :: bs) || isSubL needle bs

/-- `hay.startswith(pre)` -/
def strStarts (hay pre : String) : Bool := startsL pre.data hay.data

/-- `needle in hay` on strings. -/
def containsStr (hay needle : String) : Bool := isSubL needle.data hay.data

/-- `c in s` for a single character. -/
def charIn (c : Char) (s : String) : Bool := s.data.any (fun d => d == c)

/-- Drop the first `n` characters (`s[n:]`). -/
def dropStr (s : String) (n : ℕ) : String := ⟨s.data.drop n⟩

/-- Drop the last `n` characters (`s[:-n]`). -/
def dropRightStr (s : String) (n : ℕ) : String := ⟨s.data.take (s.data.length - n)⟩

/-! ### Idempotence of normalization (supporting lemmas) -/

theorem caret_not_mem_replCaret (l : List Char) : '^' ∉ replCaret l := by
  induction l with
  | nil => simp [replCaret]
  | cons c cs ih =>
    intro hmem
    by_cases h : c = '^'
    · rw [replCaret, if_pos h] at hmem
      rcases List.mem_cons.mp hmem with h1 | hmem2
      · exact absurd h1 (by decide)
      · rcases List.mem_cons.mp hmem2 with h1 | h3
        · exact absurd h1 (by decide)
        · exact ih h3
    · rw [replCaret, if_neg h] at hmem
      rcases List.mem_cons.mp hmem with h1 | h3
      · exact h h1.symm
      · exact ih h3

theorem replCaret_eq_self {l : List Char} (h : '^' ∉ l) : replCaret l = l := by
  induction l with
  | nil => rfl
  | cons c cs ih =>
    have hc : c ≠ '^' := fun he => h (he ▸ List.mem_cons_self c cs)
    have h2 : '^' ∉ cs := fun hm => h (List.mem_cons_of_mem c hm)
    rw [replCaret, if_neg hc, ih h2]

theorem div_not_mem_replDivCh (l : List Char) : '÷' ∉ replDivCh l := by
  induction l with
  | nil => simp [replDivCh]
  | cons c cs ih =>
    intro hmem
    rw [replDivCh] at hmem
    rcases List.mem_cons.mp hmem with h1 | h3
    · by_cases h : c = '÷'
      · rw [if_pos h] at h1; exact absurd h1 (by decide)
      · rw [if_neg h] at h1; exact h h1.symm
    · exact ih h3

theorem replDivCh_eq_self {l : List Char} (h : '÷' ∉ l) : replDivCh l = l := by
  induction l with
  | nil => rfl
  | cons c cs ih =>
    have hc : c ≠ '÷' := fun he => h (he ▸ List.mem_cons_self c cs)
    have h2 : '÷' ∉ cs := fun hm => h (List.mem_cons_of_mem c hm)
    rw [replDivCh, if_neg hc, ih h2]

theorem mem_replDivCh_of_ne {c : Char} (hc : c ≠ '/') {l : List Char}
    (h : c ∈ replDivCh l) : c ∈ l := by
  induction l with
  | nil => simp [replDivCh] at h
  | cons a as ih =>
    simp only [replDivCh, List.mem_cons] at h
    rcases h with h | h
    · by_cases ha : a = '÷'
      · simp [ha] at h; exact absurd h hc
      · simp [ha] at h; simp [h]
    · simp [ih h]

theorem mem_of_mem_trimL {c : Char} {l : List Char} (h : c ∈ trimL l) : c ∈ l :=
  (List.dropWhile_sublist (p := isPySpace) (l := l)).mem h

theorem mem_of_mem_trimR {c : Char} {l : List Char} (h : c ∈ trimR l) : c ∈ l := by
  unfold trimR at h
  have h1 : c ∈ trimL l.reverse := List.mem_reverse.mp h
  exact List.mem_reverse.mp (mem_of_mem_trimL h1)

theorem mem_of_mem_pyStrip {c : Char} {l : List Char} (h : c ∈ pyStrip l) : c ∈ l :=
  mem_of_mem_trimL (mem_of_mem_trimR h)

theorem trimL_idem (l : List Char) : trimL (trimL l) = trimL l := by
  unfold trimL
  induction l with
  | nil => rfl
  | cons c cs ih =>
    by_cases h : isPySpace c
    · simp [List.dropWhile_cons, h, ih]
    · simp [List.dropWhile_cons, h]

theorem trimR_suffix_ex (x : List Char) : ∃ t, x = trimR x ++ t := by
  refine ⟨(List.takeWhile isPySpace x.reverse).reverse, ?_⟩
  unfold trimR trimL
  conv_lhs =>
    rw [← List.reverse_reverse x,
        ← List.takeWhile_append_dropWhile (p := isPySpace) (l := x.reverse)]
  rw [List.reverse_append]

theorem trimL_trimR_of_trimmed {x : List Char} (h : trimL x = x) :
    trimL (trimR x) = trimR x := by
  obtain ⟨t, ht⟩ := trimR_suffix_ex x
  cases hx : trimR x with
  | nil => simp [trimL, hx]
  | cons c cs =>
    have hxc : x = c :: (cs ++ t) := by rw [ht, hx]; simp
    by_cases hc : isPySpace c
    · exfalso
      have hlen : (trimL x).length ≤ (cs ++ t).length := by
        rw [hxc]
        unfold trimL
        rw [List.dropWhile_cons_of_pos hc]
        exact (List.dropWhile_sublist _).length_le
      rw [h, hxc] at hlen
      simp at hlen
    · unfold trimL
      exact List.dropWhile_cons_of_neg hc

theorem trimR_idem (x : List Char) : trimR (trimR x) = trimR x := by
  unfold trimR
  rw [List.reverse_reverse, trimL_idem]

theorem pyStrip_idem (l : List Char) : pyStrip (pyStrip l) = pyStrip l := by
  unfold pyStrip
  have h1 : trimL (trimL l) = trimL l := trimL_idem l
  have h2 : trimL (trimR (trimL l)) = trimR (trimL l) := trimL_trimR_of_trimmed h1
  rw [h2, trimR_idem]

/-! ### Symbol detection -/

/-- Accumulating scanner producing the maximal runs of ASCII letters,
modelling `re.findall(r"[A-Za-z]+", expr_str)`.  `acc` holds the current
run reversed. -/
def runsAux : List Char → List Char → List String
  | [], acc => if acc.isEmpty then [] else [⟨acc.reverse⟩]
  | c :: cs, acc =>
    if isAsciiAlpha c then runsAux cs (c :: acc)
    else if acc.isEmpty then runsAux cs [] else ⟨acc.reverse⟩ :: runsAux cs []

/-- All maximal runs of ASCII letters in a character list. -/
def letterRuns (l : List Char) : List String := runsAux l []

/-- The reserved function names excluded by `detect_symbols`. -/
def reservedFuncs : List String :=
  ["sin", "cos", "tan", "log", "exp", "sqrt", "diff", "integrate", "solve", "simplify"]

/-- Membership test on a list of strings, modelling Python's `in`. -/
def inList (x : String) (l : List String) : Bool := l.any (fun y => decide (y = x))

/-- Code-point lexicographic comparison of character lists - the order the
host language's `sorted` uses on strings. -/
def lexLeL : List Char → List Char → Bool
  | [], _ => true
  | _ :: _, [] => false
  | a :: as, b :: bs =>
    if a.toNat = b.toNat then lexLeL as bs else decide (a.toNat < b.toNat)

/-- Code-point lexicographic comparison of strings. -/
def strLe (s t : String) : Bool := lexLeL s.data t.data

/-- The sort relation of the symbol detector (lexicographic order as a
proposition). -/
def strLeR (s t : String) : Prop := strLe s t = true

instance : DecidableRel strLeR := fun s t => by unfold strLeR; infer_instance

/-- `sorted(set(re.findall(...)))`: the deduplicated, lexicographically
sorted letter runs. -/
def detectNames (s : String) : List String :=
  List.insertionSort strLeR (letterRuns s.data).dedup

/-- The sorted names with reserved function names removed. -/
def detectFiltered (s : String) : List String :=
  (detectNames s).filter (fun n => !(inList (lowerStr n) reservedFuncs))

/-- `detect_symbols(expr_str)` from the source: letter runs, deduplicated and
sorted lexicographically, reserved function names removed, defaulting to the
single symbol `x`. -/
def detectSymbols (s : String) : List String :=
  if (detectFiltered s).isEmpty then ["x"] else detectFiltered s

/-- `get_primary_symbol`: first symbol of the detected (nonempty) list. -/
def primarySym (l : List String) : String := l.headD "x"

theorem sanitizeL_idem (l : List Char) : sanitizeL (sanitizeL l) = sanitizeL l := by
  have hcaret : '^' ∉ pyStrip (replDivCh (replCaret l)) := fun hmem =>
    caret_not_mem_replCaret l
      (mem_replDivCh_of_ne (by decide) (mem_of_mem_pyStrip hmem))
  have hdiv : '÷' ∉ pyStrip (replDivCh (replCaret l)) := fun hmem =>
    div_not_mem_replDivCh (replCaret l) (mem_of_mem_pyStrip hmem)
  show pyStrip (replDivCh (replCaret (pyStrip (replDivCh (replCaret l))))) =
    pyStrip (replDivCh (replCaret l))
  rw [replCaret_eq_self hcaret, replDivCh_eq_self hdiv, pyStrip_idem]

/-! ### Expressions of the algebra engine

Modelled from the spec: the external algebra engine represents mathematical
expressions as structured trees (`parse(text) -> Expr | ParseError`).  The
claims only exercise rational constants, symbols, arithmetic operators,
single-argument function applications, and the engine's unevaluated-integral
value. -/

/-- Symbolic expression trees of the (modelled) algebra engine. -/
inductive Expr where
  | num (q : ℚ)
  | sym (s : String)
  | add (a b : Expr)
  | sub (a b : Expr)
  | mul (a b : Expr)
  | div (a b : Expr)
  | pow (a b : Expr)
  | neg (a : Expr)
  | fn1 (name : String) (arg : Expr)
  | intg (e : Expr) (v : String)
deriving DecidableEq

/-- Tokens of the expression grammar. -/
inductive Tok where
  | tnum (n : ℕ)
  | tname (s : String)
  | tplus | tminus | tstar | tslash | tpow | tlp | trp | tcomma
deriving DecidableEq

/-- Numeric value of a decimal digit character. -/
def digitVal (c : Char) : ℕ := c.toNat - '0'.toNat

/-- Fuel-indexed tokenizer for the expression fragment the engine's parser
accepts on the inputs the core feeds it: integers, names, `+ - * / ** ( ) ,`
and whitespace.  Any other character is a tokenization failure (the engine
raises a parse error there). -/
def tokA : ℕ → List Char → Option (List Tok)
  | 0, _ => none
  | _ + 1, [] => some []
  | f + 1, c :: cs =>
    if isPySpace c then tokA f cs
    else if c.isDigit then
      let ds := cs.takeWhile Char.isDigit
      let n := (c :: ds).foldl (fun a d => 10 * a + digitVal d) 0
      (tokA f (cs.dropWhile Char.isDigit)).map (Tok.tnum n :: ·)
    else if isAsciiAlpha c then
      let ls := cs.takeWhile isAsciiAlpha
      (tokA f (cs.dropWhile isAsciiAlpha)).map (Tok.tname ⟨c :: ls⟩ :: ·)
    else if c = '*' then
      match cs with
      | '*' :: cs2 => (tokA f cs2).map (Tok.tpow :: ·)
      | _ => (tokA f cs).map (Tok.tstar :: ·)
    else if c = '+' then (tokA f cs).map (Tok.tplus :: ·)
    else if c = '-' then (tokA f cs).map (Tok.tminus :: ·)
    else if c = '/' then (tokA f cs).map (Tok.tslash :: ·)
    else if c = '(' then (tokA f cs).map (Tok.tlp :: ·)
    else if c = ')' then (tokA f cs).map (Tok.trp :: ·)
    else if c = ',' then (tokA f cs).map (Tok.tcomma :: ·)
    else none

/-- Fuel-indexed recursive-descent parser with the precedence and
associativity of the engine's expression language (sums left-associative,
products left-associative, unary sign, right-associative power binding
tighter than unary minus, atoms with one-argument function calls).
`lvl` selects the grammar production; levels `100`/`101` are the
left-associative continuation loops carrying the parsed prefix in `acc`. -/
def parseA : ℕ → ℕ → Option Expr → List Tok → Option (Expr × List Tok)
  | 0, _, _, _ => none
  | f + 1, 0, _, ts =>
    (parseA f 1 none ts).bind fun er => parseA f 100 (some er.1) er.2
  | f + 1, 100, some acc, ts =>
    match ts with
    | .tplus :: r =>
      (parseA f 1 none r).bind fun er => parseA f 100 (some (.add acc er.1)) er.2
    | .tminus :: r =>
      (parseA f 1 none r).bind fun er => parseA f 100 (some (.sub acc er.1)) er.2
    | _ => some (acc, ts)
  | f + 1, 1, _, ts =>
    (parseA f 2 none ts).bind fun er => parseA f 101 (some er.1) er.2
  | f + 1, 101, some acc, ts =>
    match ts with
    | .tstar :: r =>
      (parseA f 2 none r).bind fun er => parseA f 101 (some (.mul acc er.1)) er.2
    | .tslash :: r =>
      (parseA f 2 none r).bind fun er => parseA f 101 (some (.div acc er.1)) er.2
    | _ => some (acc, ts)
  | f + 1, 2, _, ts =>
    match ts with
    | .tminus :: r => (parseA f 2 none r).map fun er => (.neg er.1, er.2)
    | .tplus :: r => parseA f 2 none r
    | _ => parseA f 3 none ts
  | f + 1, 3, _, ts =>
    (parseA f 4 none ts).bind fun br =>
      match br.2 with
      | .tpow :: r2 => (parseA f 2 none r2).map fun er => (.pow br.1 er.1, er.2)
      | _ => some (br.1, br.2)
  | f + 1, 4, _, ts =>
    match ts with
    | .tnum n :: r => some (.num (n : ℚ), r)
    | .tname s :: .tlp :: r =>
      (parseA f 0 none r).bind fun ar =>
        match ar.2 with
        | .trp :: r3 => some (.fn1 s ar.1, r3)
        | _ => none
    | .tname s :: r => some (.sym s, r)
    | .tlp :: r =>
      (parseA f 0 none r).bind fun er =>
        match er.2 with
        | .trp :: r3 => some (er.1, r3)
        | _ => none
    | _ => none
  | _ + 1, _, _, _ => none

/-- Modelled from the spec: `parse(text) -> Expr | ParseError` (the engine's
`sympify`).  Tokenize and parse; any leftover input is a parse error. -/
def sympify (s : String) : Except String Expr :=
  match tokA (s.data.length + 1) s.data with
  | none => .error ("Sympify of expression failed: " ++ s)
  | some ts =>
    match parseA (6 * ts.length + 20) 0 none ts with
    | some (e, []) => .ok e
    | _ => .error ("could not parse " ++ s)

/-- Constant folding: evaluate an expression to a rational when it contains
no symbols, functions or unevaluated integrals. -/
def evalRat : Expr → Option ℚ
  | .num q => some q
  | .sym _ => none
  | .add a b => do pure ((← evalRat a) + (← evalRat b))
  | .sub a b => do pure ((← evalRat a) - (← evalRat b))
  | .mul a b => do pure ((← evalRat a) * (← evalRat b))
  | .div a b => do
    let x ← evalRat a
    let y ← evalRat b
    if y = 0 then none else pure (x / y)
  | .pow a b => do
    let x ← evalRat a
    let y ← evalRat b
    if y.den = 1 then
      if 0 ≤ y.num then pure (x ^ y.num.toNat)
      else if x = 0 then none else pure ((x ^ (-y.num).toNat)⁻¹)
    else none
  | .neg a => do pure (-(← evalRat a))
  | .fn1 _ _ => none
  | .intg _ _ => none

/-! ### Gaussian-rational constants

The engine evaluates constant subexpressions at parse time, and its constant
domain on the inputs the core feeds it includes imaginary numbers: `sqrt(-4)`
evaluates to `2*I`, and polynomial construction accepts such constants as
coefficients (`Poly(x**2 - 2*I, x)` succeeds).  Constants are therefore
modelled as Gaussian rationals `re + im*I`. -/

/-- A Gaussian rational `re + im·I`. -/
structure GRat where
  re : ℚ
  im : ℚ
deriving DecidableEq

instance (n : ℕ) : OfNat GRat n := ⟨⟨(n : ℚ), 0⟩⟩

instance : Add GRat := ⟨fun a b => ⟨a.re + b.re, a.im + b.im⟩⟩

instance : Neg GRat := ⟨fun a => ⟨-a.re, -a.im⟩⟩

instance : Sub GRat := ⟨fun a b => ⟨a.re - b.re, a.im - b.im⟩⟩

instance : Mul GRat :=
  ⟨fun a b => ⟨a.re * b.re - a.im * b.im, a.re * b.im + a.im * b.re⟩⟩

/-- Squared modulus. -/
def gnormSq (a : GRat) : ℚ := a.re * a.re + a.im * a.im

instance : Inv GRat :=
  ⟨fun a => ⟨a.re / gnormSq a, -(a.im / gnormSq a)⟩⟩

instance : Div GRat := ⟨fun a b => a * b⁻¹⟩

/-- The Gaussian rational with no imaginary part. -/
def GRat.ofQ (q : ℚ) : GRat := ⟨q, 0⟩

/-- Natural power of a Gaussian rational. -/
def gpowN (g : GRat) : ℕ → GRat
  | 0 => 1
  | n + 1 => g * gpowN g n

/-- Largest `s ≤ bound` with `s * s ≤ n`, by structural descent (a
kernel-computable integer square root for the small values arising here). -/
def natSqrtAux (n : ℕ) : ℕ → ℕ
  | 0 => 0
  | s + 1 => if (s + 1) * (s + 1) ≤ n then s + 1 else natSqrtAux n s

/-- Integer square root (rounded down). -/
def natSqrtLin (n : ℕ) : ℕ := natSqrtAux n n

/-- Exact square root of a nonnegative perfect-square rational. -/
def ratSqrt (q : ℚ) : Option ℚ :=
  if q < 0 then none
  else
    let n := q.num.toNat
    let d := q.den
    let sn := natSqrtLin n
    let sd := natSqrtLin d
    if sn * sn = n ∧ sd * sd = d then some ((sn : ℚ) / (sd : ℚ)) else none

/-- Constant folding into the Gaussian rationals, modelling the engine's
automatic evaluation of constant subexpressions during parsing: arithmetic
on exact constants, and `sqrt` of a rational whose absolute value is a
perfect square (`sqrt(4) = 2`, `sqrt(-4) = 2*I`); anything else stays
symbolic. -/
def evalG : Expr → Option GRat
  | .num q => some (GRat.ofQ q)
  | .sym _ => none
  | .add a b => do pure ((← evalG a) + (← evalG b))
  | .sub a b => do pure ((← evalG a) - (← evalG b))
  | .mul a b => do pure ((← evalG a) * (← evalG b))
  | .div a b => do
    let x ← evalG a
    let y ← evalG b
    if y = 0 then none else pure (x / y)
  | .pow a b => do
    let x ← evalG a
    let y ← evalG b
    if y.im = 0 ∧ y.re.den = 1 then
      if 0 ≤ y.re.num then pure (gpowN x y.re.num.toNat)
      else if x = 0 then none else pure ((gpowN x (-y.re.num).toNat)⁻¹)
    else none
  | .neg a => do pure (-(← evalG a))
  | .fn1 n a =>
    match n, evalG a with
    | "sqrt", some q =>
      if q.im = 0 then
        if 0 ≤ q.re then (ratSqrt q.re).map GRat.ofQ
        else (ratSqrt (-q.re)).map (fun s => (⟨0, s⟩ : GRat))
      else none
    | _, _ => none
  | .intg _ _ => none

/-- Decimal representation of a natural number. -/
def natStr (n : ℕ) : String := Nat.repr n

/-- Decimal representation of an integer. -/
def intStr : ℤ → String
  | .ofNat n => natStr n
  | .negSucc n => "-" ++ natStr (n + 1)

/-- Rendering of a rational, as the engine prints exact rationals
(`p` or `p/q`). -/
def prettyRat (q : ℚ) : String :=
  if q.den = 1 then intStr q.num else intStr q.num ++ "/" ++ natStr q.den

/-- Rendering of a Gaussian rational, as the engine prints exact constants
(`p`, `p/q`, `q*I`, `p + q*I`). -/
def prettyG (g : GRat) : String :=
  if g.im = 0 then prettyRat g.re
  else if g.re = 0 then
    if g.im = 1 then "I"
    else if g.im = -1 then "-I"
    else prettyRat g.im ++ "*I"
  else prettyRat g.re ++ " + " ++ prettyRat g.im ++ "*I"

/-- Modelled from the spec: `pretty_print(Expr) -> string`.  The engine's
two-dimensional pretty printer is abstracted to a definite one-line
rendering; the narration steps the claims inspect verbatim do not go through
it except on plain rationals, where it agrees with the engine. -/
def pretty : Expr → String
  | .num q => prettyRat q
  | .sym s => s
  | .add a b => "(" ++ pretty a ++ " + " ++ pretty b ++ ")"
  | .sub a b => "(" ++ pretty a ++ " - " ++ pretty b ++ ")"
  | .mul a b => "(" ++ pretty a ++ "*" ++ pretty b ++ ")"
  | .div a b => "(" ++ pretty a ++ "/" ++ pretty b ++ ")"
  | .pow a b => "(" ++ pretty a ++ "**" ++ pretty b ++ ")"
  | .neg a => "(-" ++ pretty a ++ ")"
  | .fn1 n a => n ++ "(" ++ pretty a ++ ")"
  | .intg e v => "Integral(" ++ pretty e ++ ", " ++ v ++ ")"

/-- Modelled from the spec: `simplify(Expr) -> Expr`.  The engine's general
simplifier is abstracted to constant folding; polynomial normalization,
where the solve narrator relies on simplification, happens inside the
polynomial construction below, as it does in the engine. -/
def engineSimplify (e : Expr) : Expr :=
  match evalRat e with
  | some q => .num q
  | none => e

/-- Modelled from the spec: `numeric_evaluate(Expr) -> Number` (the engine's
`N`), abstracted to exact constant folding. -/
def engineN (e : Expr) : Expr :=
  match evalRat e with
  | some q => .num q
  | none => e

/-! ### Polynomials over the detected symbols

Modelled from the spec: `polynomial_coefficients(Expr, symbols) ->
sequence<Expr> | NotPolynomial`.  The engine's polynomial constructor
(`Poly(expand(e), gens)`) is modelled as a normalized monomial list over the
generator list, with Gaussian-rational coefficients (the engine accepts
complex constants as coefficients: `Poly(x**2 - 2*I, x)` succeeds); as in
the engine, construction fails (`NotPolynomial`, caught by the narrator) on
non-polynomial input, while *coefficient extraction* (`all_coeffs`) raises
on a multivariate polynomial - and that call site is not guarded in the
source. -/

/-- A monomial: exponent vector over the generators, and its coefficient. -/
abbrev Mono := List ℕ × GRat

/-- A polynomial as a list of monomials. -/
abbrev PolyR := List Mono

/-- Insert a monomial into a list, combining with an existing monomial with
the same exponent vector. -/
def insertMono (m : Mono) : PolyR → PolyR
  | [] => [m]
  | (e, c) :: rest =>
    if e = m.1 then (e, c + m.2) :: rest else (e, c) :: insertMono m rest

/-- Normal form: combine like monomials, drop zero coefficients. -/
def normP (l : PolyR) : PolyR :=
  (l.foldr insertMono []).filter (fun m => decide (m.2 ≠ 0))

/-- Pointwise sum of exponent vectors. -/
def addExps (a b : List ℕ) : List ℕ := List.zipWith (· + ·) a b

/-- Product of monomials. -/
def monoMul (m1 m2 : Mono) : Mono := (addExps m1.1 m2.1, m1.2 * m2.2)

/-- Product of monomial lists. -/
def rawMul (p q : PolyR) : PolyR := p.flatMap (fun m => q.map (monoMul m))

/-- Scale a monomial list. -/
def rawScale (c : GRat) (p : PolyR) : PolyR := p.map (fun m => (m.1, c * m.2))

/-- The constant-one polynomial over `g` generators. -/
def rawOne (g : ℕ) : PolyR := [(List.replicate g 0, 1)]

/-- Power of a monomial list. -/
def rawPow (g : ℕ) (p : PolyR) : ℕ → PolyR
  | 0 => rawOne g
  | n + 1 => rawMul p (rawPow g p n)

/-- Exponent vector of the `i`-th generator. -/
def stdExps (g i : ℕ) : List ℕ := (List.replicate g 0).set i 1

/-- Translate an expression into a raw monomial list over the generators;
`none` models the engine's `NotPolynomial` failure (non-constant function
applications, symbols outside the generators, division by a non-constant,
non-natural exponents).  Constant subexpressions - including evaluated
radicals such as `sqrt(-4) = 2*I` - become Gaussian-rational coefficients,
as the engine's parse-time evaluation makes them. -/
def polyOfExpr (gens : List String) : Expr → Option PolyR
  | .num q => some [(List.replicate gens.length 0, GRat.ofQ q)]
  | .sym s =>
    match gens.findIdx? (· = s) with
    | some i => some [(stdExps gens.length i, 1)]
    | none => none
  | .add a b => do pure ((← polyOfExpr gens a) ++ (← polyOfExpr gens b))
  | .sub a b => do
    pure ((← polyOfExpr gens a) ++ rawScale (-1) (← polyOfExpr gens b))
  | .neg a => do pure (rawScale (-1) (← polyOfExpr gens a))
  | .mul a b => do pure (rawMul (← polyOfExpr gens a) (← polyOfExpr gens b))
  | .div a b =>
    match evalG b with
    | some q => if q = 0 then none else do pure (rawScale q⁻¹ (← polyOfExpr gens a))
    | none => none
  | .pow a b =>
    match evalG b with
    | some q =>
      if q.im = 0 ∧ q.re.den = 1 ∧ 0 ≤ q.re.num then do
        pure (rawPow gens.length (← polyOfExpr gens a) q.re.num.toNat)
      else none
    | none => none
  | .fn1 n a =>
    match evalG (.fn1 n a) with
    | some q => some [(List.replicate gens.length 0, q)]
    | none => none
  | .intg _ _ => none

/-- `Poly(expand(e), gens)` of the engine: the normalized polynomial. -/
def polyFrom (e : Expr) (gens : List String) : Option PolyR :=
  (polyOfExpr gens e).map normP

/-- Degree of a monomial in the first generator. -/
def degIn1 (m : Mono) : ℕ := m.1.headD 0

/-- `Poly.degree()`: degree in the first generator; `none` models the
engine's minus-infinity degree of the zero polynomial (which compares
unequal to any numeral). -/
def pdeg? (p : PolyR) : Option ℕ := (p.map degIn1).max?

/-- Is the polynomial univariate (no occurrence of a generator after the
first)? -/
def puni (p : PolyR) : Bool := p.all (fun m => (m.1.drop 1).all (· == 0))

/-- Coefficient of the pure power `x₀^i`. -/
def coeffAt (p : PolyR) (i : ℕ) : GRat :=
  match p.find? (fun m => degIn1 m == i && (m.1.drop 1).all (· == 0)) with
  | some m => m.2
  | none => 0

/-- The message of the fault the engine raises when `all_coeffs` is asked
for the coefficient list of a multivariate polynomial. -/
def multivarMsg : String := "multivariate polynomials are not supported"

/-- `Poly.all_coeffs()`: the coefficient list from the leading coefficient
down to the constant one.  On a multivariate polynomial this *raises*
(`Except.error`), exactly as the engine does. -/
def allCoeffsE (p : PolyR) : Except String (List GRat) :=
  if puni p then
    match pdeg? p with
    | some d => .ok (((List.range (d + 1)).reverse).map (coeffAt p))
    | none => .ok [0]
  else .error multivarMsg

/-! ### Roots

Solutions of the degree ≤ 2 polynomial equations reaching the root
computation live in a quadratic extension of the Gaussian rationals; a root
is represented as `r + c·√d` with Gaussian-rational `r`, `c` and a rational
radicand `d` (the discriminant is real whenever roots are computed, because
the source's sign comparison has executed without raising by then), and is
normalized by the constructor below (folding perfect squares, also of
negative radicands, into the constant part), which plays the part of the
engine's `simplify` on solution values. -/

/-- A solution value `r + c·√d` (with `d < 0` read as `√d = I·√(-d)`). -/
structure RootVal where
  r : GRat
  c : GRat
  d : ℚ
deriving DecidableEq

/-- A purely rational solution value. -/
def RootVal.ofRat (q : ℚ) : RootVal := ⟨GRat.ofQ q, 0, 0⟩

/-- A radical-free solution value. -/
def RootVal.ofG (g : GRat) : RootVal := ⟨g, 0, 0⟩

/-- Normalizing constructor for `r + c·√d`. -/
def mkRoot (r c : GRat) (d : ℚ) : RootVal :=
  if c = 0 ∨ d = 0 then ⟨r, 0, 0⟩
  else
    match ratSqrt d with
    | some s => ⟨r + c * GRat.ofQ s, 0, 0⟩
    | none =>
      match ratSqrt (-d) with
      | some s => ⟨r + c * (⟨0, s⟩ : GRat), 0, 0⟩
      | none => ⟨r, c, d⟩

/-- Rendering of a solution value. -/
def prettyRoot (v : RootVal) : String :=
  if v.c = 0 then prettyG v.r
  else "(" ++ prettyG v.r ++ " + " ++ prettyG v.c ++ "*sqrt(" ++ prettyRat v.d ++ "))"

/-- Rendering of a solution list, as the engine prints lists. -/
def renderRoots (l : List RootVal) : String :=
  "[" ++ String.intercalate ", " (l.map prettyRoot) ++ "]"

/-! ### Engine: solving, differentiation, integration -/

/-- Canonical sign of a half-coefficient, for the engine's deterministic
root ordering: for a real value this is the absolute value (so the engine's
real roots come out ascending); for a complex coefficient it abstracts the
engine's canonical sort key. -/
def gabs (g : GRat) : GRat :=
  if g.re < 0 ∨ (g.re = 0 ∧ g.im < 0) then -g else g

/-- The two roots of `a·x² + b·x + c = 0` as computed by the source's
specialized quadratic path: `(-b + √Δ)/(2a)` then `(-b - √Δ)/(2a)`, each
passed through the engine's simplification (the normalizing `mkRoot`).  The
radicand is the real part of the discriminant: at the (guarded) call site
the discriminant is real, the sign comparison having already executed. -/
def quadRoots (a b c : GRat) : List RootVal :=
  [mkRoot (-b / (2 * a)) (1 / (2 * a)) (b * b - 4 * a * c).re,
   mkRoot (-b / (2 * a)) (-(1 / (2 * a))) (b * b - 4 * a * c).re]

/-- Modelled from the spec: the engine's general solver on a quadratic.
The engine returns the *set* of roots (a double root reported once) in its
canonical order: real roots ascending, complex conjugates with the negative
imaginary part first. -/
def engineQuadSolve (a b c : GRat) : List RootVal :=
  if b * b - 4 * a * c = 0 then [RootVal.ofG (-b / (2 * a))]
  else
    [mkRoot (-b / (2 * a)) (-(gabs (1 / (2 * a)))) (b * b - 4 * a * c).re,
     mkRoot (-b / (2 * a)) (gabs (1 / (2 * a))) (b * b - 4 * a * c).re]

/-- Modelled from the spec: the engine's general linear solve. -/
def engineLinSolve (a b : GRat) : List RootVal := [RootVal.ofG (-b / a)]

/-- Modelled from the spec: `solve(Eq, symbols) -> sequence<Expr>`, the
engine's general equation solver, on the fragment the claims exercise
(univariate polynomial equations of degree at most 2); outside the fragment
it fails, a failure the narrator catches. -/
def engineSolve (le re : Expr) (gens : List String) : Except String (List RootVal) :=
  match polyFrom (.sub le re) gens with
  | none => .error "cannot solve: unsupported equation shape"
  | some p =>
    if puni p then
      match pdeg? p with
      | none => .ok []
      | some 0 => .ok []
      | some 1 => .ok (engineLinSolve (coeffAt p 1) (coeffAt p 0))
      | some 2 => .ok (engineQuadSolve (coeffAt p 2) (coeffAt p 1) (coeffAt p 0))
      | some _ => .error "cannot solve: degree outside the modelled fragment"
    else .error "cannot solve: multivariate systems outside the modelled fragment"

/-- Does the expression mention the variable? -/
def dependsOn : Expr → String → Bool
  | .num _, _ => false
  | .sym s, v => s == v
  | .add a b, v | .sub a b, v | .mul a b, v | .div a b, v | .pow a b, v =>
    dependsOn a v || dependsOn b v
  | .neg a, v => dependsOn a v
  | .fn1 _ a, v => dependsOn a v
  | .intg e w, v => dependsOn e v || w == v

/-- Derivative of a basic function, for the chain rule. -/
def dfn (n : String) (a : Expr) : Expr :=
  if n = "sin" then .fn1 "cos" a
  else if n = "cos" then .neg (.fn1 "sin" a)
  else if n = "tan" then .div (.num 1) (.pow (.fn1 "cos" a) (.num 2))
  else if n = "log" then .div (.num 1) a
  else if n = "exp" then .fn1 "exp" a
  else if n = "sqrt" then .div (.num 1) (.mul (.num 2) (.fn1 "sqrt" a))
  else .fn1 ("Derivative_" ++ n) a

/-- Modelled from the spec: `differentiate(Expr, symbol) -> Expr`, the
engine's symbolic derivative (sum, product, quotient, power and chain
rules). -/
def ederiv : Expr → String → Expr
  | .num _, _ => .num 0
  | .sym s, v => if s == v then .num 1 else .num 0
  | .add a b, v => .add (ederiv a v) (ederiv b v)
  | .sub a b, v => .sub (ederiv a v) (ederiv b v)
  | .neg a, v => .neg (ederiv a v)
  | .mul a b, v => .add (.mul (ederiv a v) b) (.mul a (ederiv b v))
  | .div a b, v =>
    .div (.sub (.mul (ederiv a v) b) (.mul a (ederiv b v))) (.pow b (.num 2))
  | .pow a b, v =>
    match evalRat b with
    | some q => .mul (.mul (.num q) (.pow a (.num (q - 1)))) (ederiv a v)
    | none =>
      .mul (.pow a b)
        (.add (.mul (ederiv b v) (.fn1 "log" a)) (.div (.mul b (ederiv a v)) a))
  | .fn1 n a, v => .mul (dfn n a) (ederiv a v)
  | .intg e w, v => if w == v then e else .intg (ederiv e v) w

/-- Structural antiderivative search (constants, powers, sums, constant
multiples, the basic functions); `none` when the table finds no elementary
closed form. -/
def antideriv (e : Expr) (v : String) : Option Expr :=
  if !dependsOn e v then some (.mul e (.sym v))
  else
    match e with
    | .sym s => some (.div (.pow (.sym s) (.num 2)) (.num 2))
    | .add a b => do pure (.add (← antideriv a v) (← antideriv b v))
    | .sub a b => do pure (.sub (← antideriv a v) (← antideriv b v))
    | .neg a => (antideriv a v).map .neg
    | .mul a b =>
      if !dependsOn a v then (antideriv b v).map (.mul a ·)
      else if !dependsOn b v then (antideriv a v).map (.mul · b)
      else none
    | .div a b =>
      if !dependsOn b v then (antideriv a v).map (.div · b)
      else
        match a, b with
        | .num q, .sym s => some (.mul (.num q) (.fn1 "log" (.sym s)))
        | _, _ => none
    | .pow b ex =>
      match b, evalRat ex with
      | .sym s, some q =>
        if q = -1 then some (.fn1 "log" (.sym s))
        else some (.div (.pow (.sym s) (.num (q + 1))) (.num (q + 1)))
      | _, _ => none
    | .fn1 n a =>
      if a = .sym v then
        if n = "sin" then some (.neg (.fn1 "cos" a))
        else if n = "cos" then some (.fn1 "sin" a)
        else if n = "exp" then some (.fn1 "exp" a)
        else none
      else none
    | _ => none

/-- Modelled from the spec: `integrate(Expr, symbol) -> Expr | NoClosedForm`.
As the underlying engine actually behaves, when no elementary closed form is
found the call does *not* fail: it returns the integral unevaluated. -/
def engineIntegrate (f : Expr) (v : String) : Expr :=
  match antideriv f v with
  | some g => g
  | none => .intg f v

/-- The engine's integration entry point including variable validation: the
engine raises when asked to integrate with respect to a non-symbol. -/
def engineIntegrateE (f : Expr) (var : Expr) : Except String Expr :=
  match var with
  | .sym v => .ok (engineIntegrate f v)
  | _ => .error "integration variable must be a symbol"

/-- The engine's differentiation entry point including variable
validation. -/
def engineDiffE (f : Expr) (var : Expr) : Except String Expr :=
  match var with
  | .sym v => .ok (ederiv f v)
  | _ => .error "cannot differentiate with respect to the given expression"

/-! ### Step narrators (translated from the source) -/

/-- A narrator outcome: the optional result list and the narration steps;
`Except.error` models an exception escaping the narrator. -/
abbrev SolveOut := Except String (Option (List RootVal) × List String)

/-- The message of the malformed-equation outcome. -/
def eqMsg : String := "Equation must contain exactly one '=' sign."

/-- Rendering of the detected symbols, as the engine prints a single symbol
or a tuple. -/
def renderSyms (l : List String) : String :=
  match l with
  | [s] => s
  | _ => "(" ++ String.intercalate ", " l ++ ")"

/-- The degree-1 branch of `solve_equation_steps` (lines 62-74 of the
source): coefficient extraction (which can raise), the zero-leading-
coefficient fallback (whose solver call is unguarded), and the closed-form
`x = -b/a` path. -/
def linBranch (p : PolyR) (le re : Expr) (syms : List String)
    (steps0 : List String) : SolveOut :=
  match allCoeffsE p with
  | .error e => .error e
  | .ok cs =>
    match cs with
    | [a, b] =>
      let steps1 := steps0 ++
        ["Linear equation with a=" ++ prettyG a ++ ", b=" ++ prettyG b]
      if a = 0 then
        let steps2 := steps1 ++ ["Coefficient a is 0 -> no or infinite solutions."]
        match engineSolve le re syms with
        | .ok sol => .ok (some sol, steps2)
        | .error e => .error e
      else
        let sv := -b / a
        .ok (some [RootVal.ofG sv],
          steps1 ++ ["Solve: " ++ renderSyms syms ++ " = -b/a = " ++ prettyG sv])
    | _ => .error "cannot unpack coefficient list"

/-- The message of the fault the engine raises when a non-real number is
compared with zero. -/
def nonRealMsg (g : GRat) : String :=
  "Invalid comparison of non-real " ++ prettyG g

/-- The engine's relational comparison `g < 0`: decides the sign of a real
value, and *raises* (`Except.error`, a TypeError in the engine) on a
non-real one - exactly what the source's unguarded `if disc < 0:` does. -/
def engineLtZero (g : GRat) : Except String Bool :=
  if g.im = 0 then .ok (decide (g.re < 0)) else .error (nonRealMsg g)

/-- The degree-2 branch of `solve_equation_steps` (lines 75-87): coefficient
extraction (which can raise), discriminant narration - whose sign comparison
at line 80 is unguarded and raises on a non-real discriminant - and the
quadratic formula. -/
def quadBranch (p : PolyR) (steps0 : List String) : SolveOut :=
  match allCoeffsE p with
  | .error e => .error e
  | .ok cs =>
    match cs with
    | [a, b, c] =>
      let disc := b * b - 4 * a * c
      let steps1 := steps0 ++
        ["Quadratic detected with a=" ++ prettyG a ++ ", b=" ++ prettyG b ++
          ", c=" ++ prettyG c,
         "Discriminant Δ = b² - 4ac = " ++ prettyG disc]
      match engineLtZero disc with
      | .error e => .error e
      | .ok isNeg =>
        let steps2 := if isNeg then steps1 ++ ["Δ < 0 → complex roots"] else steps1
        let rs := quadRoots a b c
        .ok (some rs,
          steps2 ++ ["Roots: x = (-b ± √Δ) / (2a) → " ++
            String.intercalate ", " (rs.map prettyRoot)])
    | _ => .error "cannot unpack coefficient list"

/-- The fallback branch of `solve_equation_steps` (lines 88-95): general
solve inside a try, failure converted to a result-absent outcome. -/
def generalBranch (le re : Expr) (syms : List String)
    (steps0 : List String) : SolveOut :=
  let steps1 := steps0 ++ ["Using SymPy general solve"]
  match engineSolve le re syms with
  | .ok sol => .ok (some sol, steps1 ++ ["Solutions: " ++ renderRoots sol])
  | .error e => .ok (none, ["Could not solve: " ++ e])

/-- The degree dispatch of `solve_equation_steps` (lines 55-95): attempt
polynomial construction (failure caught, falling back to the general
branch), then dispatch on the degree in the first detected symbol. -/
def solveDispatch (le re : Expr) (syms : List String)
    (steps0 : List String) : SolveOut :=
  match polyFrom (Expr.sub le re) syms with
  | some p =>
    match pdeg? p with
    | some 1 => linBranch p le re syms steps0
    | some 2 => quadBranch p steps0
    | _ => generalBranch le re syms steps0
  | none => generalBranch le re syms steps0

/-- `solve_equation_steps` after the equation has been split: parse the two
sides (failures caught), record the equation and its zero-form as steps, and
dispatch on the detected degree. -/
def solveAfterSplit (normalized lhs rhs : String) : SolveOut :=
  match sympify lhs with
  | .error e => .ok (none, ["Parsing error: " ++ e])
  | .ok le =>
    match sympify rhs with
    | .error e => .ok (none, ["Parsing error: " ++ e])
    | .ok re =>
      solveDispatch le re (detectSymbols normalized)
        ["Original equation: " ++ pretty le ++ " = " ++ pretty re,
         "Simplify to one side: " ++ pretty (Expr.sub le re) ++ " = 0"]

/-- `solve_equation_steps(equation_str)` from the source. -/
def solveCore (s : String) : SolveOut :=
  let normalized := sanitize_input s
  let parts := splitChar '=' normalized.data
  if parts.length = 2 then
    solveAfterSplit normalized ⟨parts.getD 0 []⟩ ⟨parts.getD 1 []⟩
  else .ok (none, [eqMsg])

/-- `simplify_steps(expr_str)` from the source. -/
def simplifySteps (s : String) : Option Expr × List String :=
  let e0 := sanitize_input s
  match sympify e0 with
  | .error ex => (none, ["Parsing error: " ++ ex])
  | .ok e =>
    let sm := engineSimplify e
    (some sm, ["Original: " ++ pretty e, "Simplified: " ++ pretty sm])

/-- The wrapped-call front end shared by the differentiate and integrate
narrators: if the (already stripped) text begins with the call form, slice
off the head and the final parenthesis, split the inside on commas, and take
the first part as the expression and the stripped second part (when present)
as the variable. -/
def callParts (e0 : String) (head : String) (headLen : ℕ) :
    String × Option String :=
  if strStarts (lowerStr e0) head then
    let inner := dropRightStr (dropStr e0 headLen) 1
    let parts := (splitChar ',' inner.data).map (fun l => (⟨l⟩ : String))
    (parts.getD 0 "",
     if parts.length > 1 then some (pyStripStr (parts.getD 1 "")) else none)
  else (e0, none)

/-- `derivative_steps(expr_str)` from the source.  The variable taken from a
`diff(expr, var)` wrapper stays a plain string until the engine's
differentiation call resolves it, so a bad variable raises *at that call*,
which is not guarded. -/
def derivativeSteps (s : String) : Except String (Option Expr × List String) :=
  let e0 := sanitize_input s
  let pv := callParts e0 "diff(" 5
  let expr_part := pv.1
  let varS := pv.2
  match sympify expr_part with
  | .error ex => .ok (none, ["Parsing error: " ++ ex])
  | .ok f =>
    let varShow :=
      match varS with
      | some vs => vs
      | none => primarySym (detectSymbols expr_part)
    let steps := ["Function: " ++ pretty f, "Differentiate w.r.t " ++ varShow]
    let varE : Except String Expr :=
      match varS with
      | some vs => sympify vs
      | none => .ok (.sym (primarySym (detectSymbols expr_part)))
    match varE with
    | .error e => .error e
    | .ok ve =>
      match engineDiffE f ve with
      | .ok d => .ok (some d, steps ++ ["Result: " ++ pretty d])
      | .error e => .error e

/-- The guarded tail of `integral_steps` (lines 154-160): the engine call
inside a try, failure converted to a result-absent outcome, success
annotated with the integration constant. -/
def integralTail (f : Expr) (varE : Except String Expr)
    (steps : List String) : Option Expr × List String :=
  match varE with
  | .error e => (none, ["Could not integrate: " ++ e])
  | .ok ve =>
    match engineIntegrateE f ve with
    | .ok I => (some I, steps ++ ["Result: " ++ pretty I ++ " + C"])
    | .error e => (none, ["Could not integrate: " ++ e])

/-- `integral_steps(expr_str)` from the source.  Everything that can fail is
inside a try, so the narrator itself never raises. -/
def integralSteps (s : String) : Option Expr × List String :=
  let e0 := sanitize_input s
  let pv := callParts e0 "integrate(" 10
  let expr_part := pv.1
  let varS := pv.2
  match sympify expr_part with
  | .error ex => (none, ["Parsing error: " ++ ex])
  | .ok f =>
    let varShow :=
      match varS with
      | some vs => vs
      | none => primarySym (detectSymbols expr_part)
    let steps := ["Integrand: " ++ pretty f, "Integrate w.r.t " ++ varShow]
    let varE : Except String Expr :=
      match varS with
      | some vs => sympify vs
      | none => .ok (.sym (primarySym (detectSymbols expr_part)))
    integralTail f varE steps

/-! ### The form handler's classifier (`index`, POST branch) -/

/-- The heterogeneous result forwarded by the adapter: a solution list from
the solve narrator, or a single symbolic value. -/
inductive ResVal where
  | roots (l : List RootVal)
  | exprv (e : Expr)
deriving DecidableEq

/-- The dispatch of the `index` handler on the already-normalized query and
the requested mode, before the surrounding try: auto-detection in priority
order (equals sign, derivative cues, integral cues, simplify cues, numeric
evaluation with simplify fallback), then the four explicit modes, and -
matching the source's `if/elif` chain, which has no else - the untouched
initial state for any other mode. -/
def indexDispatch (query kind : String) : Except String (Option ResVal × List String) :=
  if kind = "auto" then
    let qlow := lowerStr query
    if charIn '=' query then
      (solveCore query).map (fun out => (out.1.map .roots, out.2))
    else if strStarts qlow "diff" || strStarts qlow "d/d" || containsStr qlow "d/d" then
      (derivativeSteps query).map (fun out => (out.1.map .exprv, out.2))
    else if strStarts qlow "integrate" || strStarts qlow "int(" ||
        containsStr qlow "integrate" then
      let out := integralSteps query
      .ok (out.1.map .exprv, out.2)
    else if strStarts qlow "simplify" || charIn '/' query ||
        containsStr qlow "simplify" then
      let out := simplifySteps query
      .ok (out.1.map .exprv, out.2)
    else
      match sympify query with
      | .ok val =>
        .ok (some (.exprv (engineN val)),
          ["Parsed value: " ++ pretty val,
           "Numeric evaluation: " ++ pretty (engineN val)])
      | .error _ =>
        let out := simplifySteps query
        .ok (out.1.map .exprv, out.2)
  else if kind = "solve" then
    (solveCore query).map (fun out => (out.1.map .roots, out.2))
  else if kind = "diff" then
    (derivativeSteps query).map (fun out => (out.1.map .exprv, out.2))
  else if kind = "integrate" then
    let out := integralSteps query
    .ok (out.1.map .exprv, out.2)
  else if kind = "simplify" then
    let out := simplifySteps query
    .ok (out.1.map .exprv, out.2)
  else .ok (none, [])

/-- The POST branch of the `index` handler: sanitize the raw query, run the
dispatch inside the surrounding try, and convert an escaped exception into
the error-processing outcome. -/
def indexCore (raw kind : String) : Option ResVal × List String :=
  let query := sanitize_input raw
  match indexDispatch query kind with
  | .ok out => out
  | .error e => (none, ["Error processing: " ++ e])

/-! ### Projections used by the claim statements -/

/-- Result component of a solve outcome (`none` when the narrator raised). -/
def solveResult : SolveOut → Option (List RootVal)
  | .ok out => out.1
  | .error _ => none

/-- Steps component of a solve outcome. -/
def solveSteps : SolveOut → List String
  | .ok out => out.2
  | .error _ => []

/-- Result component of a differentiate outcome. -/
def dResultOf : Except String (Option Expr × List String) → Option Expr
  | .ok out => out.1
  | .error _ => none

/-- The solution list of an engine solve call (empty when it failed). -/
def rootsOfEngine : Except String (List RootVal) → List RootVal
  | .ok l => l
  | .error _ => []

/-!
## Claims

Each claim of the specification is settled by one theorem below.
-/

/-- C5: normalization is idempotent - `sanitize_input (sanitize_input s) =
sanitize_input s` for every string `s` (caret to power operator, unicode
division to slash, strip). -/
theorem c5_sanitize_idempotent (s : String) :
    sanitize_input (sanitize_input s) = sanitize_input s := by
  show (⟨sanitizeL (sanitizeL s.data)⟩ : String) = ⟨sanitizeL s.data⟩
  rw [sanitizeL_idem]

/-- C8: solving `"2*x+3=7"` takes the degree-1 path with `a=2, b=-4`,
yields the single solution `x = 2`, and the steps contain the literal text
"Linear equation"; solving `"x^2-5*x+6=0"` takes the degree-2 path with
`a=1, b=-5, c=6`, discriminant `1`, yields the roots `3` then `2` in that
order, and the steps contain the literal text "Discriminant". -/
theorem c8_linear_and_quadratic_examples :
    solveResult (solveCore "2*x+3=7") = some [RootVal.ofRat 2] ∧
    "Linear equation with a=2, b=-4" ∈ solveSteps (solveCore "2*x+3=7") ∧
    ((solveSteps (solveCore "2*x+3=7")).any
      (fun st => containsStr st "Linear equation")) = true ∧
    solveResult (solveCore "x^2-5*x+6=0") =
      some [RootVal.ofRat 3, RootVal.ofRat 2] ∧
    "Quadratic detected with a=1, b=-5, c=6" ∈ solveSteps (solveCore "x^2-5*x+6=0") ∧
    "Discriminant Δ = b² - 4ac = 1" ∈ solveSteps (solveCore "x^2-5*x+6=0") ∧
    ((solveSteps (solveCore "x^2-5*x+6=0")).any
      (fun st => containsStr st "Discriminant")) = true := by
  decide

/-- C9: the differentiate narrator produces the same derivative result for
the wrapped form `"diff(sin(x)*x, x)"` and the bare form `"sin(x)*x"` (with
the variable auto-detected as `x`), and that result is present. -/
theorem c9_diff_wrapped_equals_bare :
    dResultOf (derivativeSteps "diff(sin(x)*x, x)") =
      dResultOf (derivativeSteps "sin(x)*x") ∧
    dResultOf (derivativeSteps "sin(x)*x") ≠ none := by
  decide

/-- C2 counterexample: on `"integrate(x^x, x)"` - an integrand with no
elementary antiderivative - the integrate narrator returns a *present*
result (the unevaluated integral), not an absent one: the engine does not
raise in this situation, so the claimed result-absent outcome does not
occur. -/
theorem c2_counterexample_no_closed_form_result_present :
    (integralSteps "integrate(x^x, x)").1 =
      some (Expr.intg (.pow (.sym "x") (.sym "x")) "x") ∧
    (integralSteps "integrate(x^x, x)").1 ≠ none := by
  decide

/-- C2 amended: when the engine finds no closed form for `f` with respect to
a symbol `v`, the guarded tail of the integrate narrator returns the
*unevaluated integral* as a present result, with the "+ C"-annotated result
step - result absent occurs only when the engine call raises. -/
theorem c2_amended_unevaluated_integral (f : Expr) (v : String)
    (steps : List String) (h : antideriv f v = none) :
    integralTail f (.ok (.sym v)) steps =
      (some (Expr.intg f v),
       steps ++ ["Result: " ++ pretty (Expr.intg f v) ++ " + C"]) := by
  simp only [integralTail, engineIntegrateE, engineIntegrate, h]

theorem c2_amended_witness :
    antideriv (Expr.pow (.sym "x") (.sym "x")) "x" = none ∧
    integralTail (Expr.pow (.sym "x") (.sym "x")) (.ok (.sym "x")) [] =
      (some (Expr.intg (.pow (.sym "x") (.sym "x")) "x"),
       [] ++ ["Result: " ++ pretty (Expr.intg (.pow (.sym "x") (.sym "x")) "x") ++ " + C"]) :=
  ⟨by decide,
   c2_amended_unevaluated_integral (Expr.pow (.sym "x") (.sym "x")) "x" [] (by decide)⟩

/-- C3 counterexample: the operation mode `"evaluate"` is not one of the
recognized modes, and the form handler then produces the *empty* outcome
(result absent, no steps) instead of the auto-classified outcome it produces
for the same query under `"auto"`. -/
theorem c3_counterexample_unrecognized_mode :
    indexCore "2+2" "evaluate" = (none, []) ∧
    (indexCore "2+2" "auto").1 = some (.exprv (.num 4)) ∧
    indexCore "2+2" "evaluate" ≠ indexCore "2+2" "auto" := by
  decide

/-- C3 amended: an operation-mode string other than
`"auto"/"solve"/"diff"/"integrate"/"simplify"` is *not* treated as auto: the
form handler's `if/elif` chain has no default branch, so the outcome is the
untouched initial state - result absent and an empty step list. -/
theorem c3_amended_unrecognized_mode_empty (q k : String)
    (h1 : k ≠ "auto") (h2 : k ≠ "solve") (h3 : k ≠ "diff")
    (h4 : k ≠ "integrate") (h5 : k ≠ "simplify") :
    indexCore q k = (none, []) := by
  unfold indexCore indexDispatch
  simp [h1, h2, h3, h4, h5]

theorem c3_amended_witness : indexCore "2+2" "evaluate" = (none, []) :=
  c3_amended_unrecognized_mode_empty "2+2" "evaluate"
    (by decide) (by decide) (by decide) (by decide) (by decide)

/-- C1 counterexample: on the well-formed equation `"x+y=0"` the solve
narrator does not return an outcome at all - the engine's coefficient
extraction on the multivariate degree-1 polynomial raises, and the exception
escapes the narrator to the adapter. -/
theorem c1_counterexample_solve_raises :
    solveCore "x+y=0" = .error multivarMsg := by
  rfl

/-! ### Counting equals signs (for C7) -/

theorem isPySpace_ne_eq {c : Char} (h : isPySpace c = true) : c ≠ '=' := by
  intro he
  subst he
  exact absurd h (by decide)

theorem countC_replCaret (l : List Char) :
    countC '=' (replCaret l) = countC '=' l := by
  induction l with
  | nil => rfl
  | cons c cs ih =>
    by_cases h : c = '^'
    · subst h
      rw [replCaret, if_pos rfl]
      simp [countC, ih]
    · rw [replCaret, if_neg h]
      simp [countC, ih]

theorem countC_replDivCh (l : List Char) :
    countC '=' (replDivCh l) = countC '=' l := by
  induction l with
  | nil => rfl
  | cons c cs ih =>
    by_cases h : c = '÷'
    · subst h
      rw [replDivCh, if_pos rfl]
      simp [countC, ih]
    · rw [replDivCh, if_neg h]
      simp [countC, ih]

theorem countC_append (c : Char) (l1 l2 : List Char) :
    countC c (l1 ++ l2) = countC c l1 + countC c l2 := by
  induction l1 with
  | nil => simp [countC]
  | cons a as ih => simp [countC, ih]; omega

theorem countC_reverse (c : Char) (l : List Char) :
    countC c l.reverse = countC c l := by
  induction l with
  | nil => rfl
  | cons a as ih =>
    rw [List.reverse_cons, countC_append, ih]
    simp [countC]
    omega

theorem countC_trimL (l : List Char) : countC '=' (trimL l) = countC '=' l := by
  unfold trimL
  induction l with
  | nil => rfl
  | cons c cs ih =>
    by_cases h : isPySpace c
    · rw [List.dropWhile_cons_of_pos h, ih]
      simp [countC, isPySpace_ne_eq h]
    · rw [List.dropWhile_cons_of_neg h]

theorem countC_trimR (l : List Char) : countC '=' (trimR l) = countC '=' l := by
  unfold trimR
  rw [countC_reverse, countC_trimL, countC_reverse]

theorem countC_pyStrip (l : List Char) : countC '=' (pyStrip l) = countC '=' l := by
  unfold pyStrip
  rw [countC_trimR, countC_trimL]

theorem countC_sanitize (s : String) :
    countC '=' (sanitize_input s).data = countC '=' s.data := by
  show countC '=' (sanitizeL s.data) = countC '=' s.data
  unfold sanitizeL
  rw [countC_pyStrip, countC_replDivCh, countC_replCaret]

theorem splitChar_ne_nil (c : Char) (l : List Char) : splitChar c l ≠ [] := by
  induction l with
  | nil => simp [splitChar]
  | cons a as ih =>
    by_cases h : a = c
    · simp [splitChar, h]
    · rw [splitChar, if_neg h]
      cases hs : splitChar c as with
      | nil => exact absurd hs ih
      | cons seg rest => simp

theorem splitChar_length (c : Char) (l : List Char) :
    (splitChar c l).length = countC c l + 1 := by
  induction l with
  | nil => rfl
  | cons a as ih =>
    by_cases h : a = c
    · rw [splitChar, if_pos h]
      simp [countC, h, ih]
      omega
    · rw [splitChar, if_neg h]
      cases hs : splitChar c as with
      | nil => exact absurd hs (splitChar_ne_nil c as)
      | cons seg rest =>
        have h2 : (seg :: rest).length = countC c as + 1 := hs ▸ ih
        simp at h2
        simp [countC, h, h2]

/-- C7: for every solve query with zero or more than one equals signs, the
solve narrator returns result absent with the single step stating the
exactly-one-`=` requirement, having attempted no parsing or solving. -/
theorem c7_equals_sign_guard (s : String) (h : countC '=' s.data ≠ 1) :
    solveCore s = .ok (none, [eqMsg]) := by
  unfold solveCore
  have hl : (splitChar '=' (sanitize_input s).data).length ≠ 2 := by
    rw [splitChar_length, countC_sanitize]
    omega
  rw [if_neg hl]

theorem c7_witness :
    (countC '=' ("x+1" : String).data ≠ 1 ∧
      solveCore "x+1" = .ok (none, [eqMsg])) ∧
    (countC '=' ("x=1=2" : String).data ≠ 1 ∧
      solveCore "x=1=2" = .ok (none, [eqMsg])) :=
  ⟨⟨by decide, c7_equals_sign_guard "x+1" (by decide)⟩,
   ⟨by decide, c7_equals_sign_guard "x=1=2" (by decide)⟩⟩

/-! ### C4: specialized path versus general solver -/

theorem mkRoot_rad_zero (r k : GRat) : mkRoot r k 0 = RootVal.ofG r := by
  unfold mkRoot RootVal.ofG
  simp

theorem gneg_neg (g : GRat) : -(-g) = g := by
  cases g with
  | mk r i =>
    show GRat.mk (-(-r)) (-(-i)) = GRat.mk r i
    rw [neg_neg, neg_neg]

theorem gzero_re : (0 : GRat).re = (0 : ℚ) := by decide

/-- C4 counterexample: on `"x^2-2*x+1=0"` (a degree-2 polynomial equation)
the specialized narration path reports the double root twice, `[1, 1]`,
while the engine's general solver on the same equation reports the solution
set `[1]`: the results are not equal. -/
theorem c4_counterexample_double_root_lists_differ :
    solveResult (solveCore "x^2-2*x+1=0") =
      some [RootVal.ofRat 1, RootVal.ofRat 1] ∧
    rootsOfEngine
      (match sympify "x**2-2*x+1" with
       | .ok le => engineSolve le (.num 0) ["x"]
       | .error e => .error e) = [RootVal.ofRat 1] ∧
    ([RootVal.ofRat 1, RootVal.ofRat 1] : List RootVal) ≠ [RootVal.ofRat 1] := by
  decide

/-- C4 amended: for every polynomial equation of degree 1 or 2 (any
coefficients from the engine's constant domain, leading coefficient
nonzero), the specialized-path result and the general-solver result agree
*as solution sets* - a double root is listed twice by the specialized
quadratic path and once by the general solver, and the two roots may come in
different orders, so the result sequences themselves need not be equal. -/
theorem c4_amended_roots_set_equal (a b c : GRat) (h : a ≠ 0) :
    (quadRoots a b c).toFinset = (engineQuadSolve a b c).toFinset ∧
    [RootVal.ofG (-b / a)] = engineLinSolve a b := by
  constructor
  · unfold quadRoots engineQuadSolve gabs
    by_cases hd : b * b - 4 * a * c = 0
    · rw [if_pos hd, hd, gzero_re, mkRoot_rad_zero, mkRoot_rad_zero]
      simp
    · rw [if_neg hd]
      by_cases hk : (1 / (2 * a)).re < 0 ∨ ((1 / (2 * a)).re = 0 ∧ (1 / (2 * a)).im < 0)
      · rw [if_pos hk, gneg_neg]
      · rw [if_neg hk]
        simp only [List.toFinset_cons, List.toFinset_nil, insert_emptyc_eq]
        exact Finset.pair_comm _ _
  · rfl

theorem c4_amended_witness :
    (quadRoots 1 2 1).toFinset = (engineQuadSolve 1 2 1).toFinset ∧
    [RootVal.ofG (-2 / 1)] = engineLinSolve 1 2 :=
  c4_amended_roots_set_equal 1 2 1 (by decide)

/-! ### C6: the symbol detector -/

theorem lexLeL_total (a : List Char) :
    ∀ b, lexLeL a b = true ∨ lexLeL b a = true := by
  induction a with
  | nil => intro b; left; rfl
  | cons x xs ih =>
    intro b
    cases b with
    | nil => right; rfl
    | cons y ys =>
      by_cases hxy : x.toNat = y.toNat
      · rcases ih ys with h | h
        · left; rw [lexLeL, if_pos hxy]; exact h
        · right; rw [lexLeL, if_pos hxy.symm]; exact h
      · rcases Nat.lt_or_ge x.toNat y.toNat with h | h
        · left; rw [lexLeL, if_neg hxy]; simpa using h
        · have hlt : y.toNat < x.toNat :=
            lt_of_le_of_ne h (fun he => hxy he.symm)
          right
          rw [lexLeL, if_neg (fun he => hxy he.symm)]
          simpa using hlt

theorem lexLeL_trans (a : List Char) :
    ∀ b c, lexLeL a b = true → lexLeL b c = true → lexLeL a c = true := by
  induction a with
  | nil => intro b c _ _; rfl
  | cons x xs ih =>
    intro b c h1 h2
    cases b with
    | nil => exact absurd h1 (by simp [lexLeL])
    | cons y ys =>
      cases c with
      | nil => exact absurd h2 (by simp [lexLeL])
      | cons z zs =>
        rw [lexLeL] at h1 h2 ⊢
        by_cases hxy : x.toNat = y.toNat
        · rw [if_pos hxy] at h1
          by_cases hyz : y.toNat = z.toNat
          · rw [if_pos hyz] at h2
            rw [if_pos (hxy.trans hyz)]
            exact ih ys zs h1 h2
          · rw [if_neg hyz] at h2
            have hzlt : y.toNat < z.toNat := by simpa using h2
            have hxz : x.toNat < z.toNat := hxy ▸ hzlt
            rw [if_neg (Nat.ne_of_lt hxz)]
            simpa using hxz
        · rw [if_neg hxy] at h1
          have hxlt : x.toNat < y.toNat := by simpa using h1
          by_cases hyz : y.toNat = z.toNat
          · have hxz : x.toNat < z.toNat := hyz ▸ hxlt
            rw [if_neg (Nat.ne_of_lt hxz)]
            simpa using hxz
          · rw [if_neg hyz] at h2
            have hylt : y.toNat < z.toNat := by simpa using h2
            have hxz : x.toNat < z.toNat := Nat.lt_trans hxlt hylt
            rw [if_neg (Nat.ne_of_lt hxz)]
            simpa using hxz

instance : IsTotal String strLeR :=
  ⟨fun s t => lexLeL_total s.data t.data⟩

instance : IsTrans String strLeR :=
  ⟨fun a b c h1 h2 => lexLeL_trans a.data b.data c.data h1 h2⟩

theorem inList_iff {x : String} {l : List String} : inList x l = true ↔ x ∈ l := by
  unfold inList
  simp [List.any_eq_true]

/-- C6: for every input string, symbol detection returns a deduplicated
list, sorted in code-point lexicographic order, that is never empty, whose
members never have a lowercase form in the reserved set
{sin, cos, tan, log, exp, sqrt, diff, integrate, solve, simplify}, and whose
members are maximal ASCII-letter runs of the input unless the default
symbol `x` was substituted; when every letter run has a reserved lowercase
form, detection returns exactly the default `["x"]`. -/
theorem c6_detect_symbols_spec (s : String) :
    (detectSymbols s).Nodup ∧
    (detectSymbols s).Sorted strLeR ∧
    detectSymbols s ≠ [] ∧
    (∀ t ∈ detectSymbols s, lowerStr t ∉ reservedFuncs) ∧
    (∀ t ∈ detectSymbols s, t ∈ letterRuns s.data ∨ detectSymbols s = ["x"]) ∧
    ((∀ t ∈ letterRuns s.data, lowerStr t ∈ reservedFuncs) →
      detectSymbols s = ["x"]) := by
  have hperm : List.Perm (detectNames s) (letterRuns s.data).dedup :=
    List.perm_insertionSort _ _
  have hnodupN : (detectNames s).Nodup :=
    hperm.nodup_iff.mpr (List.nodup_dedup _)
  have hsortN : (detectNames s).Sorted strLeR := List.sorted_insertionSort _ _
  have hnodupF : (detectFiltered s).Nodup := List.Nodup.filter _ hnodupN
  have hsortF : (detectFiltered s).Sorted strLeR := List.Pairwise.filter _ hsortN
  have hmemF : ∀ t ∈ detectFiltered s,
      t ∈ letterRuns s.data ∧ lowerStr t ∉ reservedFuncs := by
    intro t ht
    have h2 := List.mem_filter.mp ht
    refine ⟨List.mem_dedup.mp (hperm.mem_iff.mp h2.1), fun hmem => ?_⟩
    have hfalse := h2.2
    rw [Bool.not_eq_eq_eq_not] at hfalse
    rw [← inList_iff] at hmem
    simp [hmem] at hfalse
  by_cases hem : (detectFiltered s).isEmpty
  · have hds : detectSymbols s = ["x"] := by
      unfold detectSymbols
      rw [if_pos hem]
    rw [hds]
    refine ⟨by simp, List.sorted_singleton _, by simp, ?_, ?_, fun _ => rfl⟩
    · intro t ht
      have : t = "x" := by simpa using ht
      subst this
      decide
    · intro t _
      right
      rfl
  · have hds : detectSymbols s = detectFiltered s := by
      unfold detectSymbols
      rw [if_neg hem]
    rw [hds]
    refine ⟨hnodupF, hsortF, ?_, fun t ht => (hmemF t ht).2,
      fun t ht => .inl (hmemF t ht).1, ?_⟩
    · intro hnil
      exact hem (by simp [hnil])
    · intro hall
      exfalso
      have hfe : detectFiltered s = [] := by
        unfold detectFiltered
        apply List.filter_eq_nil_iff.mpr
        intro t ht
        have htr : t ∈ letterRuns s.data :=
          List.mem_dedup.mp (hperm.mem_iff.mp ht)
        have hres := hall t htr
        rw [← inList_iff] at hres
        simp [hres]
      exact hem (by simp [hfe])

theorem c6_witness :
    (∀ t ∈ letterRuns ("sin cos sqrt" : String).data,
      lowerStr t ∈ reservedFuncs) ∧
    detectSymbols "sin cos sqrt" = ["x"] :=
  ⟨by decide, (c6_detect_symbols_spec "sin cos sqrt").2.2.2.2.2 (by decide)⟩

/-! ### C10: the leading coefficient of a detected degree-1 polynomial -/

theorem mem_normP_ne_zero {m : Mono} {l : PolyR} (h : m ∈ normP l) : m.2 ≠ 0 := by
  unfold normP at h
  have h2 := List.mem_filter.mp h
  simpa using h2.2

theorem foldl_max_mem (l : List ℕ) : ∀ a, l.foldl max a ∈ a :: l := by
  induction l with
  | nil => intro a; simp
  | cons b bs ih =>
    intro a
    have h := ih (max a b)
    rw [List.foldl_cons]
    rcases List.mem_cons.mp h with h1 | h2
    · rcases max_choice a b with hm | hm
      · rw [h1, hm]
        exact List.mem_cons_self _ _
      · rw [h1, hm]
        exact List.mem_cons_of_mem _ (List.mem_cons_self _ _)
    · exact List.mem_cons_of_mem _ (List.mem_cons_of_mem _ h2)

theorem pdeg_attained {p : PolyR} {d : ℕ} (h : pdeg? p = some d) :
    ∃ m ∈ p, degIn1 m = d := by
  unfold pdeg? at h
  cases hp : p with
  | nil =>
    rw [hp] at h
    simp [List.max?] at h
  | cons m0 rest =>
    rw [hp, List.map_cons] at h
    have hmax : (degIn1 m0 :: rest.map degIn1).max? =
        some ((rest.map degIn1).foldl max (degIn1 m0)) := rfl
    rw [hmax] at h
    have hd : (rest.map degIn1).foldl max (degIn1 m0) = d := Option.some.inj h
    have hm := foldl_max_mem (rest.map degIn1) (degIn1 m0)
    rw [hd, ← List.map_cons] at hm
    obtain ⟨m, hmem, hdm⟩ := List.mem_map.mp hm
    exact ⟨m, hp ▸ hmem, hdm⟩

theorem coeffAt_lead_ne_zero {raw p : PolyR} {d : ℕ}
    (hp : p = normP raw) (hu : puni p = true) (hd : pdeg? p = some d) :
    coeffAt p d ≠ 0 := by
  obtain ⟨m, hm, hdm⟩ := pdeg_attained hd
  have hall : p.all (fun mm => (mm.1.drop 1).all (· == 0)) = true := hu
  have hpred : (degIn1 m == d && ((m.1.drop 1).all (· == 0))) = true := by
    have h1 : (degIn1 m == d) = true := by simp [hdm]
    have h2 : ((m.1.drop 1).all (· == 0)) = true := List.all_eq_true.mp hall m hm
    rw [h1, h2]
    rfl
  have hsome :
      (p.find? (fun mm => degIn1 mm == d && ((mm.1.drop 1).all (· == 0)))).isSome := by
    rw [List.find?_isSome]
    exact ⟨m, hm, hpred⟩
  obtain ⟨m', hfind⟩ := Option.isSome_iff_exists.mp hsome
  unfold coeffAt
  rw [hfind]
  exact mem_normP_ne_zero (hp ▸ List.mem_of_find?_eq_some hfind)

theorem polyFrom_norm {e : Expr} {gens : List String} {p : PolyR}
    (hp : polyFrom e gens = some p) : ∃ raw, p = normP raw := by
  unfold polyFrom at hp
  cases ho : polyOfExpr gens e with
  | none =>
    rw [ho] at hp
    cases hp
  | some r =>
    rw [ho] at hp
    simp at hp
    exact ⟨r, hp.symm⟩

/-- C10: for every solve input whose polynomial-degree detection succeeds
with degree exactly 1, the leading coefficient extracted by `all_coeffs` is
nonzero - so the `a == 0` branch that reports no/infinite solutions and
delegates to the general solver is unreachable. -/
theorem c10_degree_one_leading_coeff_nonzero (e : Expr) (gens : List String)
    (p : PolyR) (cs : List GRat) (hp : polyFrom e gens = some p)
    (hd : pdeg? p = some 1) (hc : allCoeffsE p = .ok cs) :
    cs.headD 0 ≠ 0 := by
  unfold allCoeffsE at hc
  by_cases hu : puni p
  · rw [if_pos hu, hd] at hc
    have hr : (List.range 2).reverse = [1, 0] := by decide
    simp [hr] at hc
    rw [← hc]
    show coeffAt p 1 ≠ 0
    obtain ⟨raw, hraw⟩ := polyFrom_norm hp
    exact coeffAt_lead_ne_zero hraw hu hd
  · rw [if_neg hu] at hc
    cases hc

theorem c10_witness :
    polyFrom (Expr.sub (.mul (.num 2) (.sym "x")) (.num 4)) ["x"] =
      some [([0], -4), ([1], 2)] ∧
    pdeg? [([0], (-4 : GRat)), ([1], 2)] = some 1 ∧
    allCoeffsE [([0], (-4 : GRat)), ([1], 2)] = .ok [2, -4] ∧
    ([2, -4] : List GRat).headD 0 ≠ 0 :=
  ⟨by decide, by decide, by decide,
   c10_degree_one_leading_coeff_nonzero
     (Expr.sub (.mul (.num 2) (.sym "x")) (.num 4)) ["x"]
     [([0], -4), ([1], 2)] [2, -4] (by decide) (by decide) (by decide)⟩

/-! ### C1: the narrator boundary -/

/-- C1 amended: the narrator boundary is *not* sealed.  The solve narrator's
guard and parsing stages and its general-solver fallback are contained - a
side that fails to parse yields the result-absent "Parsing error" outcome,
and a general-solver failure yields the result-absent "Could not solve"
outcome - but the specialized degree-1/2 branches contain unguarded engine
calls whose faults propagate out of the narrator to the adapter: coefficient
extraction raises on a multivariate polynomial (e.g. `"x+y=0"`), and the
discriminant sign comparison raises on a non-real discriminant (e.g.
`"x^2=sqrt(-4)"`, whose right side the engine evaluates to `2*I`, giving the
discriminant `8*I`). -/
theorem c1_amended_narrator_boundary_not_sealed :
    (∀ n l r m, sympify l = .error m →
      solveAfterSplit n l r = .ok (none, ["Parsing error: " ++ m])) ∧
    (∀ n l r le m, sympify l = .ok le → sympify r = .error m →
      solveAfterSplit n l r = .ok (none, ["Parsing error: " ++ m])) ∧
    (∀ le re syms st m, engineSolve le re syms = .error m →
      generalBranch le re syms st = .ok (none, ["Could not solve: " ++ m])) ∧
    solveCore "x+y=0" = .error multivarMsg ∧
    solveCore "x^2=sqrt(-4)" = .error (nonRealMsg ⟨0, 8⟩) := by
  refine ⟨?_, ?_, ?_, by decide, by decide⟩
  · intro n l r m h
    unfold solveAfterSplit
    rw [h]
  · intro n l r le m h1 h2
    unfold solveAfterSplit
    rw [h1, h2]
  · intro le re syms st m h
    unfold generalBranch
    rw [h]

theorem c1_amended_witness :
    solveAfterSplit "x+1=2*" "x+1" "2*" =
      .ok (none, ["Parsing error: " ++ "could not parse 2*"]) ∧
    generalBranch (Expr.sym "x") (Expr.fn1 "sin" (Expr.sym "x")) ["x"] [] =
      .ok (none,
        ["Could not solve: " ++ "cannot solve: unsupported equation shape"]) :=
  ⟨c1_amended_narrator_boundary_not_sealed.2.1 "x+1=2*" "x+1" "2*"
     (Expr.add (Expr.sym "x") (Expr.num 1)) "could not parse 2*"
     (by decide) (by decide),
   c1_amended_narrator_boundary_not_sealed.2.2.1 (Expr.sym "x")
     (Expr.fn1 "sin" (Expr.sym "x")) ["x"] []
     "cannot solve: unsupported equation shape" (by decide)⟩

end MathSolver
